import Mathlib

/-!
Verification of the task-management repository's core logic: the data model,
the query engine (status filter, free-text search, sortable ordering), the
dashboard metrics aggregator, and the task store contract. Where a source
file is present in the repository snapshot (the Dashboard component), the
definitions are translated from it directly; where only the tests and the
submission notes of a file survive (TaskList.tsx, useTasks.ts,
taskHelpers.ts), the definitions are modelled from the specification's words
and corroborated against the in-repo tests, as each doc comment records.
-/

namespace TMS

/-- Task status (types/task.ts via its uses across the repo): todo,
in-progress, done. -/
inductive TaskStatus where
  | todo
  | inProgress
  | done
deriving DecidableEq

/-- Task priority: low, medium, high. -/
inductive TaskPriority where
  | low
  | medium
  | high
deriving DecidableEq

/-- A calendar instant at day granularity: a day index plus the time of day
in milliseconds. A JS Date value is modelled by this pair; setHours(0,0,0,0)
zeroes the time-of-day component. -/
structure DateTime where
  day : Int
  msOfDay : Nat
deriving DecidableEq

/-- The Task record as the repository's data model has it: id, title,
description, status, priority, optional due date, creation time, tags. -/
structure Task where
  id : String
  title : String
  description : String
  status : TaskStatus
  priority : TaskPriority
  dueDate : Option DateTime
  createdAt : DateTime
  tags : List String
deriving DecidableEq

/-- A status filter is a concrete status or the value all. -/
inductive StatusFilter where
  | all
  | only (s : TaskStatus)

/-- Modelled from the spec: TaskList.tsx is absent from src/ (only its tests
are there). Spec 4.1 step 1: keep every task when the filter is all,
otherwise keep exactly the tasks whose status equals the filter. -/
def filterByStatus (f : StatusFilter) (ts : List Task) : List Task :=
  match f with
  | StatusFilter.all => ts
  | StatusFilter.only s => ts.filter (fun t => t.status == s)

/-- Does a character list start with the pattern list. -/
def strStarts : List Char → List Char → Bool
  | [], _ => true
  | _ :: _, [] => false
  | p :: ps, c :: cs => p == c && strStarts ps cs

/-- Does a character list contain the pattern list as a contiguous run
(the model of JS String.includes). -/
def strHasSub : List Char → List Char → Bool
  | p, [] => p.isEmpty
  | p, c :: cs => strStarts p (c :: cs) || strHasSub p cs

/-- Case-insensitive containment: lower-case both strings, then test for a
contiguous occurrence of the pattern. -/
def containsCI (s pat : String) : Bool :=
  strHasSub pat.toLower.data s.toLower.data

/-- Modelled from the spec: TaskList.tsx is absent from src/. Spec 4.1
step 2: a task matches a query when its lower-cased title or lower-cased
description contains the lower-cased query. -/
def matchesQuery (q : String) (t : Task) : Bool :=
  containsCI t.title q || containsCI t.description q

/-- Modelled from the spec: a non-empty searchQuery keeps only the matching
tasks; the empty query keeps everything (spec 4.1 step 2). -/
def filterBySearch (q : String) (ts : List Task) : List Task :=
  if q = "" then ts else ts.filter (matchesQuery q)

/-- The sortable attributes (spec 4.1 step 3). -/
inductive SortKey where
  | createdAt
  | dueDate
  | priority
  | title

/-- Sort direction. -/
inductive SortDirection where
  | asc
  | desc

/-- The ordinal map low 0, medium 1, high 2 (spec 4.1 step 3). -/
def priorityOrder : TaskPriority → Int
  | TaskPriority.low => 0
  | TaskPriority.medium => 1
  | TaskPriority.high => 2

/-- Three-way comparison of integers as a JS comparator result. -/
def cmpInt (a b : Int) : Int :=
  if a < b then -1 else if b < a then 1 else 0

/-- Three-way comparison of strings (default case-sensitive string order). -/
def cmpStr (a b : String) : Int :=
  if a < b then -1 else if b < a then 1 else 0

/-- Three-way comparison of date values: day first, then time of day (the
order of the underlying timestamps). -/
def cmpDate (a b : DateTime) : Int :=
  if a.day < b.day then -1
  else if b.day < a.day then 1
  else if a.msOfDay < b.msOfDay then -1
  else if b.msOfDay < a.msOfDay then 1
  else 0

/-- Direction handling (spec 4.1 step 3): desc negates the comparator
result, asc keeps it. -/
def applyDir : SortDirection → Int → Int
  | SortDirection.asc, c => c
  | SortDirection.desc, c => -c

/-- Modelled from the spec: TaskList.tsx is absent from src/. The comparator
of spec 4.1 step 3 with the corrected priority behaviour of spec 9
(descending priority is high to low): compare by the key, then apply the
direction sign, except that a missing due date is pinned after every present
one in both directions. -/
def dueCmp (dir : SortDirection) : Option DateTime → Option DateTime → Int
  | none, none => 0
  | none, some _ => 1
  | some _, none => -1
  | some x, some y => applyDir dir (cmpDate x y)

/-- Comparator dispatch on the sort key. -/
def taskCmp (k : SortKey) (dir : SortDirection) (a b : Task) : Int :=
  match k with
  | SortKey.createdAt => applyDir dir (cmpDate a.createdAt b.createdAt)
  | SortKey.title => applyDir dir (cmpStr a.title b.title)
  | SortKey.priority =>
    applyDir dir (priorityOrder a.priority - priorityOrder b.priority)
  | SortKey.dueDate => dueCmp dir a.dueDate b.dueDate

/-- Modelled from the spec: stable sort of the tasks by the comparator (spec
4.1 step 3); insertion sort keeps tied elements in input order, as the
stable JS Array.prototype.sort does. -/
def sortTasks (k : SortKey) (dir : SortDirection) (ts : List Task) : List Task :=
  List.insertionSort (fun a b => taskCmp k dir a b ≤ 0) ts

/-- The priority comparator the repository actually ships, reconstructed
from src/unnamed/part_004 (SUBMISSION, Bug 4), which quotes the shipped line
as the reversed difference of the two priority ordinals (second minus
first), and from src/src/components/TaskList.spec.tsx lines 290 to 309,
whose expected order under descending priority is low, medium, high (its
comment notes that the negation in the sort logic puts low first). -/
def shippedPriorityCmp (dir : SortDirection) (a b : Task) : Int :=
  applyDir dir (priorityOrder b.priority - priorityOrder a.priority)

/-- Sorting by priority as shipped: the reversed base comparison, then the
direction sign. -/
def shippedPrioritySort (dir : SortDirection) (ts : List Task) : List Task :=
  List.insertionSort (fun a b => shippedPriorityCmp dir a b ≤ 0) ts

/-- Dashboard, src/unnamed/part_001 line 29: the number of tasks. -/
def totalTasks (ts : List Task) : Nat := ts.length

/-- Dashboard line 30: the number of tasks whose status is done. -/
def completedTasks (ts : List Task) : Nat :=
  (ts.filter (fun t => t.status == TaskStatus.done)).length

/-- Dashboard line 31: completionRate is (completedTasks / totalTasks) * 100
when totalTasks is positive, else 0; number arithmetic is modelled exactly
over the rationals. -/
def completionRate (ts : List Task) : ℚ :=
  if 0 < totalTasks ts then ((completedTasks ts : ℚ) / (totalTasks ts : ℚ)) * 100
  else 0

/-- Dashboard lines 140 to 145 display completionRate.toFixed(0): the rate
rounded to the nearest integer (round rounds half up; toFixed rounds half
away from zero; the two agree on the nonnegative rates produced here). -/
def completionRateShown (ts : List Task) : Int := round (completionRate ts)

/-- Midnight normalization, the model of setHours(0,0,0,0): keep the day,
zero the time of day (Dashboard lines 34 to 35 and 38 to 39). -/
def normMidnight (d : DateTime) : DateTime := ⟨d.day, 0⟩

/-- Strict order on date values, the model of JS Date comparison. -/
def dtLtb (a b : DateTime) : Bool := decide (cmpDate a b < 0)

/-- Dashboard lines 36 to 41: a task is overdue when it has a due date, its
status is not done, and its due date is strictly before today once both are
normalized to midnight. -/
def isOverdue (today : DateTime) (t : Task) : Bool :=
  match t.dueDate with
  | none => false
  | some d =>
    if t.status == TaskStatus.done then false
    else dtLtb (normMidnight d) (normMidnight today)

/-- Dashboard lines 36 to 41: the overdue task count. -/
def overdueTasks (ts : List Task) (today : DateTime) : Nat :=
  (ts.filter (isOverdue today)).length

/-- Dashboard line 44: the todo count. -/
def todoCount (ts : List Task) : Nat :=
  (ts.filter (fun t => t.status == TaskStatus.todo)).length

/-- Dashboard line 45: the in-progress count. -/
def inProgressCount (ts : List Task) : Nat :=
  (ts.filter (fun t => t.status == TaskStatus.inProgress)).length

/-- Dashboard line 46: the done count. -/
def doneCount (ts : List Task) : Nat :=
  (ts.filter (fun t => t.status == TaskStatus.done)).length

/-- A chart entry of Dashboard's ChartData: name, value, status,
percentage. -/
structure ChartData where
  name : String
  value : Nat
  status : TaskStatus
  percentage : ℚ

/-- Dashboard lines 49 to 68: a count as a percentage of the total, 0 when
the total is 0. -/
def pctOf (ts : List Task) (n : Nat) : ℚ :=
  if 0 < totalTasks ts then ((n : ℚ) / (totalTasks ts : ℚ)) * 100 else 0

/-- Dashboard lines 49 to 68: the three chart entries, one per status. -/
def chartData (ts : List Task) : List ChartData :=
  [⟨"To Do", todoCount ts, TaskStatus.todo, pctOf ts (todoCount ts)⟩,
   ⟨"In Progress", inProgressCount ts, TaskStatus.inProgress,
    pctOf ts (inProgressCount ts)⟩,
   ⟨"Done", doneCount ts, TaskStatus.done, pctOf ts (doneCount ts)⟩]

/-- A partial update: each mutable attribute optionally present. Spec 4.3
says update merges partialFields into the task without replacing id or
createdAt, so the patch carries neither. -/
structure TaskPatch where
  title : Option String
  description : Option String
  status : Option TaskStatus
  priority : Option TaskPriority
  dueDate : Option (Option DateTime)
  tags : Option (List String)

/-- Merge a patch into a task: every named field is replaced, every absent
field is kept, and id and createdAt always stay. -/
def applyPatch (p : TaskPatch) (t : Task) : Task :=
  ⟨t.id, p.title.getD t.title, p.description.getD t.description,
   p.status.getD t.status, p.priority.getD t.priority,
   p.dueDate.getD t.dueDate, t.createdAt, p.tags.getD t.tags⟩

/-- The draft a user submits: everything but id and createdAt
(useTasks.spec.ts lines 76 to 94). -/
structure TaskDraft where
  title : String
  description : String
  status : TaskStatus
  priority : TaskPriority
  dueDate : Option DateTime
  tags : List String

/-- The task the store creates from a draft: the fresh id and the creation
time are assigned, the draft supplies the rest. -/
def mkTask (d : TaskDraft) (fresh : String) (now : DateTime) : Task :=
  ⟨fresh, d.title, d.description, d.status, d.priority, d.dueDate, now, d.tags⟩

/-- Store state: the collection plus how many times persistence has run. -/
structure StoreState where
  tasks : List Task
  saves : Nat
deriving DecidableEq

/-- Modelled from the spec: useTasks.ts is absent from src/ (only its tests
are there). Spec 4.3 add: append the created task and persist once. -/
def addTask (d : TaskDraft) (fresh : String) (now : DateTime) (s : StoreState) :
    StoreState :=
  ⟨s.tasks ++ [mkTask d fresh now], s.saves + 1⟩

/-- Modelled from the spec: update merges the patch into the task with the
given id and leaves every other task alone; a missing id changes nothing;
persistence runs once (spec 4.3). -/
def updateTask (id : String) (p : TaskPatch) (s : StoreState) : StoreState :=
  ⟨s.tasks.map (fun t => if t.id == id then applyPatch p t else t), s.saves + 1⟩

/-- Modelled from the spec and SUBMISSION Bug 2, which quotes the shipped
filter keeping the tasks whose id differs: remove the task with the given
id, no-op when absent; persistence runs once (spec 4.3). -/
def deleteTask (id : String) (s : StoreState) : StoreState :=
  ⟨s.tasks.filter (fun t => !(t.id == id)), s.saves + 1⟩

/-- The first mock task of TaskList.spec.tsx: id 1, priority high, due
2025-12-31, created 2025-01-01 (days counted from the Unix epoch). -/
def sampleTask1 : Task :=
  ⟨"1", "Task 1", "First task description", TaskStatus.todo, TaskPriority.high,
   some ⟨20453, 0⟩, ⟨20089, 0⟩, ["urgent"]⟩

/-- The second mock task: id 2, priority medium, due 2025-11-30, created
2025-01-02. -/
def sampleTask2 : Task :=
  ⟨"2", "Task 2", "Second task description", TaskStatus.inProgress,
   TaskPriority.medium, some ⟨20422, 0⟩, ⟨20090, 0⟩, ["feature"]⟩

/-- The third mock task: id 3, priority low, no due date, created
2025-01-03. -/
def sampleTask3 : Task :=
  ⟨"3", "Task 3", "Third task description", TaskStatus.done, TaskPriority.low,
   none, ⟨20091, 0⟩, []⟩

/-- The mock task list of TaskList.spec.tsx. -/
def sampleTasks : List Task := [sampleTask1, sampleTask2, sampleTask3]

/-- A sample patch: set the status to done, touch nothing else
(useTasks.spec.ts line 208). -/
def samplePatch : TaskPatch :=
  ⟨none, none, some TaskStatus.done, none, none, none⟩

/-- The draft of the spec scenario in section 8: title A, description B,
status todo, priority medium, no due date, no tags. -/
def sampleDraft : TaskDraft :=
  ⟨"A", "B", TaskStatus.todo, TaskPriority.medium, none, []⟩

/-- The date comparator is nonpositive exactly when the first date is at or
before the second in day-then-time order. -/
theorem cmpDate_le_zero (a b : DateTime) :
    cmpDate a b ≤ 0 ↔ a.day < b.day ∨ (a.day = b.day ∧ a.msOfDay ≤ b.msOfDay) := by
  unfold cmpDate
  split_ifs <;> omega

/-- The date comparator is nonnegative exactly when the second date is at or
before the first in day-then-time order. -/
theorem zero_le_cmpDate (a b : DateTime) :
    0 ≤ cmpDate a b ↔ b.day < a.day ∨ (b.day = a.day ∧ b.msOfDay ≤ a.msOfDay) := by
  unfold cmpDate
  split_ifs <;> omega

/-- The due-date comparator relation is total in either direction. -/
theorem dueCmp_total (dir : SortDirection) (oa ob : Option DateTime) :
    dueCmp dir oa ob ≤ 0 ∨ dueCmp dir ob oa ≤ 0 := by
  rcases oa with _ | x <;> rcases ob with _ | y <;>
    rcases dir <;> simp only [dueCmp, applyDir] <;>
    first
    | omega
    | (have p1 := cmpDate_le_zero x y
       have p2 := cmpDate_le_zero y x
       have q1 := zero_le_cmpDate x y
       have q2 := zero_le_cmpDate y x
       omega)

/-- The due-date comparator relation is transitive in either direction. -/
theorem dueCmp_trans (dir : SortDirection) (oa ob oc : Option DateTime) :
    dueCmp dir oa ob ≤ 0 → dueCmp dir ob oc ≤ 0 → dueCmp dir oa oc ≤ 0 := by
  rcases oa with _ | x <;> rcases ob with _ | y <;> rcases oc with _ | z <;>
    rcases dir <;> simp only [dueCmp, applyDir] <;>
    first
    | omega
    | (have p1 := cmpDate_le_zero x y
       have p2 := cmpDate_le_zero y z
       have p3 := cmpDate_le_zero x z
       have q1 := zero_le_cmpDate x y
       have q2 := zero_le_cmpDate y z
       have q3 := zero_le_cmpDate x z
       omega)

/-- Inserting an element that satisfies P and precedes every P-element puts
it at the head of the P-filtered view. -/
theorem filter_orderedInsert_pos {α : Type} (r : α → α → Prop) [DecidableRel r]
    (P : α → Bool) (a : α) (hPa : P a = true)
    (hpos : ∀ b, P b = true → r a b) :
    ∀ l : List α, (List.orderedInsert r a l).filter P = a :: l.filter P := by
  intro l
  induction l with
  | nil => simp [List.orderedInsert, hPa]
  | cons b l ih =>
    by_cases hr : r a b
    · simp only [List.orderedInsert, if_pos hr]
      simp [List.filter_cons, hPa]
    · have hPb : P b = false := by
        rcases hPbv : P b with _ | _
        · rfl
        · exact absurd (hpos b hPbv) hr
      simp only [List.orderedInsert, if_neg hr]
      simp [List.filter_cons, hPb, ih]

/-- Inserting an element that fails P leaves the P-filtered view alone. -/
theorem filter_orderedInsert_neg {α : Type} (r : α → α → Prop) [DecidableRel r]
    (P : α → Bool) (a : α) (hPa : P a = false) :
    ∀ l : List α, (List.orderedInsert r a l).filter P = l.filter P := by
  intro l
  induction l with
  | nil => simp [List.orderedInsert, hPa]
  | cons b l ih =>
    by_cases hr : r a b
    · simp only [List.orderedInsert, if_pos hr]
      simp [List.filter_cons, hPa]
    · simp only [List.orderedInsert, if_neg hr]
      simp [List.filter_cons, ih]

/-- Stability of insertion sort on a block of mutually tied elements: when
every two P-elements are related, the P-filtered view of the sorted list is
the P-filtered view of the input, in the original order. -/
theorem filter_insertionSort {α : Type} (r : α → α → Prop) [DecidableRel r]
    (P : α → Bool)
    (hpos : ∀ a b, P a = true → P b = true → r a b) :
    ∀ l : List α, (List.insertionSort r l).filter P = l.filter P := by
  intro l
  induction l with
  | nil => rfl
  | cons a l ih =>
    simp only [List.insertionSort]
    rcases hPa : P a with _ | _
    · rw [filter_orderedInsert_neg r P a hPa, ih]
      simp [List.filter_cons, hPa]
    · rw [filter_orderedInsert_pos r P a hPa (fun b hPb => hpos a b hPa hPb), ih]
      simp [List.filter_cons, hPa]

/-- C2: sorting any task list by dueDate, in either direction, places every
task without a due date after every task with one (once a task with no due
date appears, everything later also has none), and the tasks without a due
date keep their original relative order among themselves. -/
theorem dueDate_sort_missing_last_stable (dir : SortDirection) (ts : List Task) :
    (sortTasks SortKey.dueDate dir ts).Pairwise
      (fun a b => a.dueDate = none → b.dueDate = none) ∧
    (sortTasks SortKey.dueDate dir ts).filter (fun t => t.dueDate.isNone) =
      ts.filter (fun t => t.dueDate.isNone) := by
  constructor
  · have hs : List.Sorted (fun a b => taskCmp SortKey.dueDate dir a b ≤ 0)
        (sortTasks SortKey.dueDate dir ts) := by
      haveI : IsTotal Task (fun a b => taskCmp SortKey.dueDate dir a b ≤ 0) :=
        ⟨fun a b => dueCmp_total dir a.dueDate b.dueDate⟩
      haveI : IsTrans Task (fun a b => taskCmp SortKey.dueDate dir a b ≤ 0) :=
        ⟨fun a b c => dueCmp_trans dir a.dueDate b.dueDate c.dueDate⟩
      exact List.sorted_insertionSort _ ts
    refine hs.imp ?_
    intro a b hr hnone
    rcases hb : b.dueDate with _ | y
    · rfl
    · exfalso
      have hd : dueCmp dir a.dueDate b.dueDate ≤ 0 := hr
      rw [hnone, hb] at hd
      simp [dueCmp] at hd
  · apply filter_insertionSort
    intro a b hA hB
    have ha := Option.isNone_iff_eq_none.mp hA
    have hb := Option.isNone_iff_eq_none.mp hB
    show dueCmp dir a.dueDate b.dueDate ≤ 0
    rw [ha, hb]
    simp [dueCmp]

/-- C1: at the mock tasks of TaskList.spec.tsx (ids 1, 2, 3 with priorities
high, medium, low), the shipped priority comparator sorts descending as low,
medium, high and ascending as high, medium, low, exactly as the repository
own test asserts; the corrected comparator of the spec gives the claimed
high, medium, low on descending and low, medium, high on ascending. The
claim is therefore right about the intent and wrong about the shipped code:
the code contradicts its own documentation (SUBMISSION Bug 4). -/
theorem priority_sort_shipped_inverted :
    (shippedPrioritySort SortDirection.desc sampleTasks).map Task.id = ["3", "2", "1"] ∧
    (shippedPrioritySort SortDirection.asc sampleTasks).map Task.id = ["1", "2", "3"] ∧
    (sortTasks SortKey.priority SortDirection.desc sampleTasks).map Task.id = ["1", "2", "3"] ∧
    (sortTasks SortKey.priority SortDirection.asc sampleTasks).map Task.id = ["3", "2", "1"] := by
  decide

/-- C3: with a concrete status filter, a task is in the filtered result
exactly when it is in the input and its status equals the filter; with the
filter all, the whole input is kept. -/
theorem status_filter_exact (s : TaskStatus) (ts : List Task) (t : Task) :
    (t ∈ filterByStatus (StatusFilter.only s) ts ↔ t ∈ ts ∧ t.status = s) ∧
    filterByStatus StatusFilter.all ts = ts := by
  constructor
  · simp [filterByStatus, List.mem_filter]
  · rfl

/-- The executable pattern test agrees with the mathematical statement that
the list starts with the pattern. -/
theorem strStarts_iff (p : List Char) : ∀ l : List Char,
    strStarts p l = true ↔ ∃ v, l = p ++ v := by
  induction p with
  | nil => intro l; simp [strStarts]
  | cons a ps ih =>
    intro l
    cases l with
    | nil => simp [strStarts]
    | cons c cs =>
      simp only [strStarts, Bool.and_eq_true, beq_iff_eq, ih cs, List.cons_append,
        List.cons.injEq]
      constructor
      · rintro ⟨hac, v, hv⟩
        exact ⟨v, hac.symm, hv⟩
      · rintro ⟨v, hca, hv⟩
        exact ⟨hca.symm, v, hv⟩

/-- The executable containment test agrees with the mathematical statement
that the pattern occurs contiguously somewhere in the list. -/
theorem strHasSub_iff (p : List Char) : ∀ l : List Char,
    strHasSub p l = true ↔ ∃ u v, l = u ++ p ++ v := by
  intro l
  induction l with
  | nil =>
    simp only [strHasSub, List.isEmpty_iff]
    constructor
    · rintro rfl
      exact ⟨[], [], rfl⟩
    · rintro ⟨u, v, huv⟩
      rcases List.append_eq_nil.mp (List.append_eq_nil.mp huv.symm).1 with ⟨-, hp⟩
      exact hp
  | cons c cs ih =>
    simp only [strHasSub, Bool.or_eq_true, strStarts_iff, ih]
    constructor
    · rintro (⟨v, hv⟩ | ⟨u, v, huv⟩)
      · exact ⟨[], v, by simpa using hv⟩
      · exact ⟨c :: u, v, by simp [huv]⟩
    · rintro ⟨u, v, huv⟩
      cases u with
      | nil =>
        left
        exact ⟨v, by simpa using huv⟩
      | cons d u =>
        right
        have h : c = d ∧ cs = u ++ p ++ v := by simpa using huv
        exact ⟨u, v, h.2⟩

/-- Case-insensitive containment agrees with a contiguous occurrence of the
lower-cased pattern inside the lower-cased string. -/
theorem containsCI_iff (s pat : String) :
    containsCI s pat = true ↔ ∃ u v, s.toLower.data = u ++ pat.toLower.data ++ v :=
  strHasSub_iff pat.toLower.data s.toLower.data

/-- C4: for a non-empty query, a task is in the search result exactly when
it is in the input and its lower-cased title or lower-cased description
contains the lower-cased query as a contiguous substring; the empty query
keeps everything. -/
theorem search_filter_exact (q : String) (ts : List Task) (t : Task) :
    (q ≠ "" → (t ∈ filterBySearch q ts ↔ t ∈ ts ∧
      ((∃ u v, t.title.toLower.data = u ++ q.toLower.data ++ v) ∨
       (∃ u v, t.description.toLower.data = u ++ q.toLower.data ++ v)))) ∧
    filterBySearch "" ts = ts := by
  constructor
  · intro hq
    rw [filterBySearch, if_neg hq]
    simp [List.mem_filter, matchesQuery, containsCI_iff]
  · simp [filterBySearch]

/-- C5: the displayed completion rate is 0 on the empty list (no division
happens), equals the done count over the total as a percentage rounded to
the nearest integer on a non-empty list, is 100 when every task is done,
and is 33 when exactly 1 of 3 tasks is done. -/
theorem completion_rate_rounded (ts : List Task) :
    (ts = [] → completionRateShown ts = 0) ∧
    (ts ≠ [] → completionRateShown ts =
      round ((completedTasks ts : ℚ) / (totalTasks ts : ℚ) * 100)) ∧
    ((∀ t ∈ ts, t.status = TaskStatus.done) → ts ≠ [] → completionRateShown ts = 100) ∧
    (totalTasks ts = 3 → completedTasks ts = 1 → completionRateShown ts = 33) := by
  refine ⟨?_, ?_, ?_, ?_⟩
  · rintro rfl
    simp [completionRateShown, completionRate, totalTasks]
  · intro hne
    rw [completionRateShown, completionRate,
      if_pos (show 0 < totalTasks ts from List.length_pos.mpr hne)]
  · intro hall hne
    have hpos : 0 < totalTasks ts := List.length_pos.mpr hne
    have hdone : completedTasks ts = totalTasks ts := by
      rw [completedTasks, totalTasks, List.filter_eq_self.mpr]
      intro t ht
      simp [hall t ht]
    rw [completionRateShown, completionRate, if_pos hpos, hdone]
    have hcast : (0 : ℚ) < (totalTasks ts : ℚ) := by exact_mod_cast hpos
    rw [div_self (ne_of_gt hcast), one_mul]
    rw [round_eq]
    norm_num
  · intro h3 h1
    rw [completionRateShown, completionRate, h3, h1, if_pos (by norm_num)]
    rw [round_eq]
    norm_num

/-- The overdue test with its midnight normalization is a pure day
comparison: the time-of-day components never matter. -/
theorem isOverdue_eq (today : DateTime) (t : Task) :
    isOverdue today t = (match t.dueDate with
      | none => false
      | some d => !(t.status == TaskStatus.done) && decide (d.day < today.day)) := by
  rcases hd : t.dueDate with _ | d
  · simp [isOverdue, hd]
  · by_cases hs : t.status = TaskStatus.done
    · simp [isOverdue, hd, hs]
    · have hb : (t.status == TaskStatus.done) = false := by simpa using hs
      simp only [isOverdue, hd, hb, Bool.false_eq_true, if_false, Bool.not_false,
        Bool.true_and]
      rw [dtLtb, normMidnight, normMidnight]
      simp only [cmpDate]
      split_ifs <;> simp <;> omega

/-- C6: the overdue count counts exactly the tasks that have a due date,
are not done, and whose due-date day is strictly before the day of today
(midnight normalization makes the comparison day-granular); prepending a
done task or a task with no due date never changes the count. -/
theorem overdue_count_exact (ts : List Task) (today : DateTime) :
    (overdueTasks ts today = ts.countP (fun t =>
      match t.dueDate with
      | none => false
      | some d => !(t.status == TaskStatus.done) && decide (d.day < today.day))) ∧
    (∀ t : Task, t.status = TaskStatus.done →
      overdueTasks (t :: ts) today = overdueTasks ts today) ∧
    (∀ t : Task, t.dueDate = none →
      overdueTasks (t :: ts) today = overdueTasks ts today) := by
  refine ⟨?_, ?_, ?_⟩
  · rw [overdueTasks, ← List.countP_eq_length_filter]
    have hfun : isOverdue today = (fun t : Task =>
        match t.dueDate with
        | none => false
        | some d => !(t.status == TaskStatus.done) && decide (d.day < today.day)) :=
      funext (isOverdue_eq today)
    rw [hfun]
  · intro t hs
    have hfalse : isOverdue today t = false := by
      rcases hd : t.dueDate with _ | d <;> simp [isOverdue, hd, hs]
    rw [overdueTasks, overdueTasks, List.filter_cons, hfalse]
    simp
  · intro t hd
    have hfalse : isOverdue today t = false := by simp [isOverdue, hd]
    rw [overdueTasks, overdueTasks, List.filter_cons, hfalse]
    simp

/-- C7: updating or removing an id that no task of the collection carries
leaves the collection unchanged (both operations are total functions, so no
error is raised). -/
theorem missing_id_noop (id : String) (p : TaskPatch) (s : StoreState)
    (h : ∀ t ∈ s.tasks, t.id ≠ id) :
    (updateTask id p s).tasks = s.tasks ∧ (deleteTask id s).tasks = s.tasks := by
  constructor
  · show s.tasks.map _ = s.tasks
    have : s.tasks.map (fun t => if t.id == id then applyPatch p t else t) =
        s.tasks.map (fun t => t) := by
      apply List.map_congr_left
      intro t ht
      simp [h t ht]
    rw [this]
    simp
  · show s.tasks.filter _ = s.tasks
    apply List.filter_eq_self.mpr
    intro t ht
    simp [h t ht]

/-- Witness for C7 at a concrete store: updating and deleting a missing id
leaves the singleton collection as it was. -/
theorem missing_id_noop_w :
    (updateTask "missing-id" samplePatch (StoreState.mk [sampleTask1] 0)).tasks =
      [sampleTask1] ∧
    (deleteTask "missing-id" (StoreState.mk [sampleTask1] 0)).tasks = [sampleTask1] :=
  missing_id_noop "missing-id" samplePatch (StoreState.mk [sampleTask1] 0) (by decide)

/-- C8: adding a draft under a fresh id and then removing that id returns
the collection to its prior state, and persistence ran once for the add and
once for the remove (twice in total). -/
theorem add_then_remove_restores (d : TaskDraft) (fresh : String) (now : DateTime) (s : StoreState)
    (h : ∀ t ∈ s.tasks, t.id ≠ fresh) :
    (deleteTask fresh (addTask d fresh now s)).tasks = s.tasks ∧
    (addTask d fresh now s).saves = s.saves + 1 ∧
    (deleteTask fresh (addTask d fresh now s)).saves = s.saves + 2 := by
  refine ⟨?_, rfl, rfl⟩
  show (s.tasks ++ [mkTask d fresh now]).filter _ = s.tasks
  rw [List.filter_append]
  have h1 : s.tasks.filter (fun t => !(t.id == fresh)) = s.tasks := by
    apply List.filter_eq_self.mpr
    intro t ht
    simp [h t ht]
  have h2 : [mkTask d fresh now].filter (fun t => !(t.id == fresh)) = [] := by
    simp [mkTask]
  rw [h1, h2, List.append_nil]

/-- Witness for C8 at a concrete store: the scenario of spec section 8,
add then remove, restores the collection and persists twice. -/
theorem add_then_remove_restores_w :
    (deleteTask "fresh-id" (addTask sampleDraft "fresh-id" (DateTime.mk 20103 0)
      (StoreState.mk [sampleTask1] 5))).tasks = [sampleTask1] ∧
    (addTask sampleDraft "fresh-id" (DateTime.mk 20103 0)
      (StoreState.mk [sampleTask1] 5)).saves = 6 ∧
    (deleteTask "fresh-id" (addTask sampleDraft "fresh-id" (DateTime.mk 20103 0)
      (StoreState.mk [sampleTask1] 5))).saves = 7 :=
  add_then_remove_restores sampleDraft "fresh-id" (DateTime.mk 20103 0)
    (StoreState.mk [sampleTask1] 5) (by decide)

/-- C9: update keeps the collection length, leaves every task whose id
differs exactly as it was, replaces the matching task by the patched task,
and the patch replaces exactly the named fields while id and createdAt
never change. -/
theorem update_patches_named_fields (id : String) (p : TaskPatch) (s : StoreState) (i : Nat)
    (h : i < s.tasks.length) (h2 : i < (updateTask id p s).tasks.length) :
    ((updateTask id p s).tasks.length = s.tasks.length) ∧
    ((s.tasks.get ⟨i, h⟩).id ≠ id →
      (updateTask id p s).tasks.get ⟨i, h2⟩ = s.tasks.get ⟨i, h⟩) ∧
    ((s.tasks.get ⟨i, h⟩).id = id →
      (updateTask id p s).tasks.get ⟨i, h2⟩ = applyPatch p (s.tasks.get ⟨i, h⟩)) ∧
    (∀ t : Task, (applyPatch p t).id = t.id ∧ (applyPatch p t).createdAt = t.createdAt) ∧
    (∀ t : Task,
      (p.title = none → (applyPatch p t).title = t.title) ∧
      (∀ x, p.title = some x → (applyPatch p t).title = x) ∧
      (p.description = none → (applyPatch p t).description = t.description) ∧
      (∀ x, p.description = some x → (applyPatch p t).description = x) ∧
      (p.status = none → (applyPatch p t).status = t.status) ∧
      (∀ x, p.status = some x → (applyPatch p t).status = x) ∧
      (p.priority = none → (applyPatch p t).priority = t.priority) ∧
      (∀ x, p.priority = some x → (applyPatch p t).priority = x) ∧
      (p.dueDate = none → (applyPatch p t).dueDate = t.dueDate) ∧
      (∀ x, p.dueDate = some x → (applyPatch p t).dueDate = x) ∧
      (p.tags = none → (applyPatch p t).tags = t.tags) ∧
      (∀ x, p.tags = some x → (applyPatch p t).tags = x)) := by
  refine ⟨?_, ?_, ?_, ?_, ?_⟩
  · show (s.tasks.map _).length = s.tasks.length
    exact List.length_map s.tasks _
  · intro hid
    simp only [updateTask, List.get_eq_getElem, List.getElem_map]
    rw [if_neg]
    simp [List.get_eq_getElem] at hid
    simpa using hid
  · intro hid
    simp only [updateTask, List.get_eq_getElem, List.getElem_map]
    rw [if_pos]
    simp [List.get_eq_getElem] at hid
    simpa using hid
  · intro t
    exact ⟨rfl, rfl⟩
  · intro t
    refine ⟨?_, ?_, ?_, ?_, ?_, ?_, ?_, ?_, ?_, ?_, ?_, ?_⟩ <;>
      first
      | (intro hnone; simp [applyPatch, hnone])
      | (intro x hx; simp [applyPatch, hx])

/-- Witness for C9 at a concrete store: the collection keeps its length and
the patched task keeps its creation time. -/
theorem update_patches_named_fields_w :
    (updateTask "2" samplePatch (StoreState.mk [sampleTask1, sampleTask2] 0)).tasks.length = 2 ∧
    (applyPatch samplePatch sampleTask2).createdAt = sampleTask2.createdAt := by
  have h := update_patches_named_fields "2" samplePatch (StoreState.mk [sampleTask1, sampleTask2] 0) 0
    (by decide) (by decide)
  exact ⟨by rw [h.1]; rfl, (h.2.2.2.1 sampleTask2).2⟩

/-- C10: the todo, in-progress and done counts partition the collection
(they sum to the total), and on a non-empty list the three chart
percentages sum to exactly 100. -/
theorem status_breakdown_partition (ts : List Task) :
    todoCount ts + inProgressCount ts + doneCount ts = totalTasks ts ∧
    (ts ≠ [] → ((chartData ts).map ChartData.percentage).sum = 100) := by
  have hpart : todoCount ts + inProgressCount ts + doneCount ts = totalTasks ts := by
    induction ts with
    | nil => rfl
    | cons t l ih =>
      rcases hs : t.status <;>
        simp only [todoCount, inProgressCount, doneCount, totalTasks,
          List.filter_cons, hs, List.length_cons] at ih ⊢ <;>
        simp <;> omega
  refine ⟨hpart, ?_⟩
  intro hne
  have hpos : 0 < totalTasks ts := List.length_pos.mpr hne
  have hcast : (0 : ℚ) < (totalTasks ts : ℚ) := by exact_mod_cast hpos
  have hq : (todoCount ts : ℚ) + (inProgressCount ts : ℚ) + (doneCount ts : ℚ) =
      (totalTasks ts : ℚ) := by exact_mod_cast hpart
  simp only [chartData, pctOf, if_pos hpos, List.map_cons, List.map_nil, List.sum_cons,
    List.sum_nil, add_zero]
  field_simp
  linarith

end TMS
